import Mathlib

/-!
Shallow embedding of the measurement intake service (src/src/index.ts):
date normalization over the fixed format list, submission validation,
the upload / confirm / list request handlers, and the store they act on.
External collaborators (the date-fns parse library, the recognition API,
the SQL store) are modelled as explicit Lean functions and oracles.
-/

namespace Shopper

/-- Calendar date extracted by parsing (the stored `datetime` column is a
date: the source formats the parsed value with pattern yyyy-MM-dd).
Time-of-day fields are validated during parsing but not retained. -/
structure CalDate where
  year : Nat
  month : Nat
  day : Nat
deriving DecidableEq, Repr

/-- Format tokens of the date-fns patterns used in the `formats` list:
up-to-4-digit year, up-to-2-digit month / day / hour / minute / second,
up-to-3-digit milliseconds, a timezone offset (sign HH colon mm),
an abbreviated English month name, and literal characters. `T` is the
UNQUOTED letter T of the last format string: date-fns reads it as the
seconds-timestamp token, which declares itself incompatible with every other
token, so the token loop throws a RangeError the moment matching reaches
it. -/
inductive Tok where
  | Y4 | M2 | D2 | H2 | Mi2 | S2 | Ms3 | Off | Mon
  | T
  | lit (c : Char)
deriving DecidableEq, Repr

/-- Greedy digit run of length 1 to max, returning its value and the rest
(models parseNDigits of date-fns). -/
def digitsBounded (max : Nat) (cs : List Char) : Option (Nat × List Char) :=
  let ds := (cs.takeWhile (·.isDigit)).take max
  if ds = [] then none
  else some (ds.foldl (fun a c => a * 10 + (c.toNat - 48)) 0, cs.drop ds.length)

/-- Strip an exact literal character sequence from the front. -/
def eatLit : List Char → List Char → Option (List Char)
  | [], cs => some cs
  | p :: ps, c :: cs => if c = p then eatLit ps cs else none
  | _ :: _, [] => none

/-- Strip a character sequence from the front, comparing case-insensitively
(the pattern is given lowercased). -/
def eatCI : List Char → List Char → Option (List Char)
  | [], cs => some cs
  | p :: ps, c :: cs => if c.toLower = p then eatCI ps cs else none
  | _ :: _, [] => none

/-- Abbreviated English month names, as matched by the MMM token. -/
def monAbbrevs : List String :=
  ["jan", "feb", "mar", "apr", "may", "jun", "jul", "aug", "sep", "oct", "nov", "dec"]

def tryMon : List String → Nat → List Char → Option (Nat × List Char)
  | [], _, _ => none
  | n :: ns, i, cs =>
    match eatCI n.toList cs with
    | some rest => some (i, rest)
    | none => tryMon ns (i + 1) cs

/-- Match an abbreviated month name, yielding its number (1..12). -/
def monthFrom (cs : List Char) : Option (Nat × List Char) :=
  tryMon monAbbrevs 1 cs

/-- Match a timezone offset of shape sign, two digits, colon, two digits
(the xxx token). -/
def eatOffset : List Char → Option (List Char)
  | s :: a :: b :: c :: d :: e :: rest =>
    if (s = '+' || s = '-') && a.isDigit && b.isDigit && c = ':' && d.isDigit && e.isDigit
    then some rest else none
  | _ => none

/-- Date and time fields accumulated while matching one format pattern.
Fields a pattern does not mention keep valid defaults (the reference-date
defaults of the library never make a parse invalid). -/
structure Fields where
  y : Nat := 0
  mo : Nat := 1
  d : Nat := 1
  h : Nat := 0
  mi : Nat := 0
  s : Nat := 0
  ms : Nat := 0
deriving DecidableEq, Repr

/-- Result of matching one token pattern against one input: the collected
fields on a full match, a failed match (Invalid Date), or a RangeError
raised by the format itself. -/
inductive TokRun where
  | done (f : Fields)
  | fail
  | raise
deriving DecidableEq, Repr

/-- Run a token pattern over the input, requiring the whole string to be
consumed (the library rejects leftover input). The token loop of the library
interleaves the per-token incompatibility check with input matching, so the
`T` token raises exactly when every earlier token already matched its part
of the input — regardless of what input remains. -/
def runToks : List Tok → List Char → Fields → TokRun
  | [], [], f => .done f
  | [], _ :: _, _ => .fail
  | .Y4 :: ts, cs, f =>
    match digitsBounded 4 cs with
    | some (v, rest) => runToks ts rest { f with y := v }
    | none => .fail
  | .M2 :: ts, cs, f =>
    match digitsBounded 2 cs with
    | some (v, rest) => runToks ts rest { f with mo := v }
    | none => .fail
  | .D2 :: ts, cs, f =>
    match digitsBounded 2 cs with
    | some (v, rest) => runToks ts rest { f with d := v }
    | none => .fail
  | .H2 :: ts, cs, f =>
    match digitsBounded 2 cs with
    | some (v, rest) => runToks ts rest { f with h := v }
    | none => .fail
  | .Mi2 :: ts, cs, f =>
    match digitsBounded 2 cs with
    | some (v, rest) => runToks ts rest { f with mi := v }
    | none => .fail
  | .S2 :: ts, cs, f =>
    match digitsBounded 2 cs with
    | some (v, rest) => runToks ts rest { f with s := v }
    | none => .fail
  | .Ms3 :: ts, cs, f =>
    match digitsBounded 3 cs with
    | some (v, rest) => runToks ts rest { f with ms := v }
    | none => .fail
  | .Off :: ts, cs, f =>
    match eatOffset cs with
    | some rest => runToks ts rest f
    | none => .fail
  | .Mon :: ts, cs, f =>
    match monthFrom cs with
    | some (v, rest) => runToks ts rest { f with mo := v }
    | none => .fail
  | .T :: _, _, _ => .raise
  | .lit c :: ts, d :: cs, f => if d = c then runToks ts cs f else .fail
  | .lit _ :: _, [], _ => .fail

def isLeap (y : Nat) : Bool :=
  (y % 4 = 0 && y % 100 != 0) || y % 400 = 0

def daysInMonth (y mo : Nat) : Nat :=
  if mo = 2 then (if isLeap y then 29 else 28)
  else if mo = 4 || mo = 6 || mo = 9 || mo = 11 then 30
  else 31

/-- Calendar validity of the matched fields (models the isValid check the
source applies to every parse result). -/
def validFields (f : Fields) : Bool :=
  1 ≤ f.mo && f.mo ≤ 12 && 1 ≤ f.d && f.d ≤ daysInMonth f.y f.mo &&
    f.h ≤ 23 && f.mi ≤ 59 && f.s ≤ 59 && f.ms ≤ 999

/-- Outcome of one parse call combined with the isValid check: a valid date,
an invalid result, or a RangeError escaping the call. -/
inductive ParseResult where
  | ok (d : CalDate)
  | invalid
  | raised
deriving DecidableEq, Repr

/-- One format pattern applied to one string, modelling the external date-fns
parse combined with the isValid check: the date when the whole string matches
the pattern and the fields are calendar-valid, invalid otherwise — except
that a pattern raises once matching reaches its unquoted T token. -/
def parseWith (toks : List Tok) (s : String) : ParseResult :=
  match runToks toks s.toList {} with
  | .done f => if validFields f then .ok ⟨f.y, f.mo, f.d⟩ else .invalid
  | .fail => .invalid
  | .raise => .raised

/-- The ordered format list of the source, each format string embedded as its
token pattern, in the same order:
ISO with milliseconds and offset (its T is quoted, hence a literal),
dd/MM/yyyy, MM/dd/yyyy, yyyy/MM/dd, dd-MM-yyyy, MM-dd-yyyy, yyyy-MM-dd,
yyyy.MM.dd, dd MMM yyyy, yyyy/MM/dd HH:mm:ss, MM/dd/yyyy HH:mm:ss, and
yyyy-MM-ddTHH:mm — whose T is unquoted and therefore the raising timestamp
token: that last pattern never parses anything, it raises whenever the
date part of the input matches and is invalid otherwise. -/
def formats : List (List Tok) :=
  [ [.Y4, .lit '-', .M2, .lit '-', .D2, .lit 'T', .H2, .lit ':', .Mi2, .lit ':',
      .S2, .lit '.', .Ms3, .Off],
    [.D2, .lit '/', .M2, .lit '/', .Y4],
    [.M2, .lit '/', .D2, .lit '/', .Y4],
    [.Y4, .lit '/', .M2, .lit '/', .D2],
    [.D2, .lit '-', .M2, .lit '-', .Y4],
    [.M2, .lit '-', .D2, .lit '-', .Y4],
    [.Y4, .lit '-', .M2, .lit '-', .D2],
    [.Y4, .lit '.', .M2, .lit '.', .D2],
    [.D2, .lit ' ', .Mon, .lit ' ', .Y4],
    [.Y4, .lit '/', .M2, .lit '/', .D2, .lit ' ', .H2, .lit ':', .Mi2, .lit ':', .S2],
    [.M2, .lit '/', .D2, .lit '/', .Y4, .lit ' ', .H2, .lit ':', .Mi2, .lit ':', .S2],
    [.Y4, .lit '-', .M2, .lit '-', .D2, .T, .H2, .lit ':', .Mi2] ]

/-- First-match loop over the format list: the first valid parse wins, an
invalid parse moves on to the next format, and a raising parse lets the
RangeError escape the whole loop. -/
def findFirst : List (List Tok) → String → Except Unit (Option CalDate)
  | [], _ => .ok none
  | f :: fs, s =>
    match parseWith f s with
    | .ok d => .ok (some d)
    | .invalid => findFirst fs s
    | .raised => .error ()

/-- parseDateFromFormats of the source: the for-loop returning the first
format that parses to a valid date, null when every format fails — and
raising when the loop hits a raising format before any match. -/
def parseDateFromFormats (s : String) : Except Unit (Option CalDate) :=
  findFirst formats s

/-- The some-loop of isDateTimeValid, with the same short-circuit and the
same escape of a raised RangeError as the for-loop. -/
def anyValid : List (List Tok) → String → Except Unit Bool
  | [], _ => .ok false
  | f :: fs, s =>
    match parseWith f s with
    | .ok _ => .ok true
    | .invalid => anyValid fs s
    | .raised => .error ()

/-- isDateTimeValid of the source: some format in the list parses the string
to a valid date; a RangeError raised by a format escapes the check. -/
def isDateTimeValid (s : String) : Except Unit Bool :=
  anyValid formats s

/-- Characters of the base64 payload class of the image regex. -/
def b64Char (c : Char) : Bool :=
  c.isAlpha || c.isDigit || c = '+' || c = '/' || c = '='

/-- isBase64Image of the source: the image string matches the anchored regex
data colon image slash (jpeg or png) semicolon base64 comma, followed by a
nonempty run of base64-class characters, nothing else. -/
def isBase64Image (image : String) : Bool :=
  let check (p : String) : Bool :=
    match eatLit p.toList image.toList with
    | some rest => !rest.isEmpty && rest.all b64Char
    | none => false
  check "data:image/jpeg;base64," || check "data:image/png;base64,"

/-- Greedy run of ASCII letters at the front (the letter-plus group of the
mime-type regex, which never needs backtracking because the following
literal is a semicolon). -/
def takeAlpha : List Char → List Char × List Char
  | [] => ([], [])
  | c :: cs =>
    if c.isAlpha then ((c :: (takeAlpha cs).1), (takeAlpha cs).2)
    else ([], c :: cs)

/-- getMimeType of the source: match the unanchored-at-end regex capturing
image slash letters before the base64 marker; fall back to the octet-stream
type when the string does not match. -/
def getMimeType (s : String) : String :=
  match eatLit "data:image/".toList s.toList with
  | some rest =>
    let p := takeAlpha rest
    if !p.1.isEmpty && (eatLit ";base64,".toList p.2).isSome
    then "image/" ++ String.mk p.1
    else "application/octet-stream"
  | none => "application/octet-stream"

/-- mimeTypeToFileExtension of the source. -/
def mimeTypeToFileExtension (mimeType : String) : String :=
  if mimeType = "image/jpeg" then "jpg"
  else if mimeType = "image/png" then "png"
  else "bin"

/-- The WATER and GAS measure-type enumeration. -/
inductive MeasureType where
  | WATER
  | GAS
deriving DecidableEq, Repr

def typeName : MeasureType → String
  | .WATER => "WATER"
  | .GAS => "GAS"

/-- The measure-type enum schema: exact, case-sensitive match. -/
def parseType (s : String) : Option MeasureType :=
  if s = "WATER" then some .WATER
  else if s = "GAS" then some .GAS
  else none

/-- A row of the Measurement table. -/
structure Record where
  uuid : String
  value : Option Int
  datetime : CalDate
  type : MeasureType
  confirmed : Bool
  customer_code : String
  url : String
deriving DecidableEq, Repr

/-- Raw upload request body, fields as uninterpreted strings. -/
structure RawMeasurement where
  image : String
  customer_code : String
  measure_datetime : String
  measure_type : String
deriving DecidableEq, Repr

/-- Upload body after successful validation (measure_type now typed). -/
structure Measurement where
  image : String
  customer_code : String
  measure_datetime : String
  measure_type : MeasureType
deriving DecidableEq, Repr

/-- The single-quote character used in generated messages and keys. -/
def quoteChar : Char := Char.ofNat 39

/-- A string wrapped in single quotes. -/
def singleQuoted (s : String) : String :=
  String.mk [quoteChar] ++ s ++ String.mk [quoteChar]

/-- The default zod message for an invalid enum value, naming the expected
values and the received string. -/
def zodEnumMessage (received : String) : String :=
  "Invalid enum value. Expected " ++ singleQuoted "WATER" ++ " | " ++ singleQuoted "GAS"
    ++ ", received " ++ singleQuoted received

/-- Issues produced by the measurement schema, in field declaration order;
each issue is a field path paired with its message. The length-one checks
and the refinements are both evaluated (a failed length check does not
abort the refinement on the same field) — so the datetime refinement runs
the date check on every string, and a RangeError it raises escapes the
whole validation (zod catches no refinement exception), discarding any
issues already collected. -/
def validateMeasurement (m : RawMeasurement) : Except Unit (List (String × String)) :=
  match isDateTimeValid m.measure_datetime with
  | .error e => .error e
  | .ok dtValid =>
    .ok ((if m.image.length = 0 then [("image", "Image Base64 can not be empty !")] else [])
      ++ (if isBase64Image m.image then [] else [("image", "Invalid Base64 image format")])
      ++ (if m.customer_code.length = 0 then [("customer_code", "Customer Code can not be empty !")] else [])
      ++ (if m.measure_datetime.length = 0 then [("measure_datetime", "Datetime can not be empty !")] else [])
      ++ (if dtValid then [] else [("measure_datetime", "Invalid datetime format")])
      ++ (if (parseType m.measure_type).isSome then []
          else [("measure_type", zodEnumMessage m.measure_type)]))

/-- Outcome of safeParse on the measurement schema: typed data, the issue
list, or an exception escaping a refinement — safeParse does not catch it,
so it propagates to the caller. -/
inductive SafeParseOutcome where
  | ok (m : Measurement)
  | issues (is : List (String × String))
  | raised
deriving DecidableEq, Repr

/-- safeParse of the measurement schema. -/
def measurementSafeParse (raw : RawMeasurement) : SafeParseOutcome :=
  match validateMeasurement raw with
  | .error _ => .raised
  | .ok is =>
    match parseType raw.measure_type, is with
    | some t, [] => .ok ⟨raw.image, raw.customer_code, raw.measure_datetime, t⟩
    | _, _ => .issues is

/-- The decorated key the error formatter builds for a field path. -/
def fieldKey (f : String) : String :=
  "Field " ++ String.mk [quoteChar] ++ f ++ String.mk [quoteChar]

/-- Field paths in first-occurrence order. -/
def dedupKeys (ks : List String) : List String :=
  ks.foldl (fun acc k => if k ∈ acc then acc else acc ++ [k]) []

/-- All messages reported for one field path. -/
def messagesFor (issues : List (String × String)) (f : String) : List String :=
  (issues.filter (fun i => i.1 = f)).map (fun i => i.2)

/-- generateValidationErrorResponse of the source: group the issues by field
path, then decorate each key; pairs stand for the fields of the returned
JSON object, in insertion order. -/
def generateValidationErrorResponse (issues : List (String × String)) : List (String × List String) :=
  (dedupKeys (issues.map (fun i => i.1))).map (fun f => (fieldKey f, messagesFor issues f))

/-- JSON response bodies the handlers can produce. -/
inductive Body where
  | errMap (error_code : String) (error_description : List (String × List String))
  | errMsg (error_code : String) (error_description : String)
  | uploadOk (image_url : String) (measure_value : Option Int) (measure_uuid : String)
  | confirmOk
  | listOk (customer_code : String) (rows : List Record)
  | empty
deriving DecidableEq, Repr

/-- An HTTP response: status code and JSON body. `Body.empty` is the body of
a json call on an undefined value. -/
structure Resp where
  status : Nat
  body : Body
deriving DecidableEq, Repr

/-- error_code carried by a response body, when it is an error body. -/
def errCode : Body → Option String
  | .errMap c _ => some c
  | .errMsg c _ => some c
  | _ => none

/-- parseInt of the runtime, radix 10: optional leading spaces and sign,
then a maximal digit run; none models NaN. -/
def parseIntJS (s : String) : Option Int :=
  let digitsVal (cs : List Char) : Option Nat :=
    let ds := cs.takeWhile (·.isDigit)
    if ds = [] then none
    else some (ds.foldl (fun a c => a * 10 + (c.toNat - 48)) 0)
  match s.toList.dropWhile (· = ' ') with
  | '-' :: rest => (digitsVal rest).map (fun n => -(n : Int))
  | '+' :: rest => (digitsVal rest).map (fun n => (n : Int))
  | rest => (digitsVal rest).map (fun n => (n : Int))

/-- Outcome oracle for one intake request: what the file write, the upload
call and the recognition call would do. -/
inductive RecOutcome where
  | writeFileErr
  | uploadErr
  | generateErr
  | ok (name : String) (uri : String) (text : String)
deriving DecidableEq, Repr

/-- Value uploadBase64Image resolves with on full success. -/
structure UploadResult where
  image_url : String
  measure_value : Option Int
  measure_uuid : String
deriving DecidableEq, Repr

/-- Observable effects of one uploadBase64Image call: the resolved value
(none when the inner catch swallowed an error and the function returned
undefined), whether an exception escaped the call, whether the temp file
was created and whether it was removed again, and the store afterwards. -/
structure UploadExec where
  result : Option UploadResult
  threw : Bool
  tempCreated : Bool
  tempReleased : Bool
  store : List Record
deriving DecidableEq, Repr

/-- uploadBase64Image of the source. The try-catch-finally shape: an error
in the file write is caught, after which the finally unlink of the missing
file throws out of the call; an upload or recognition error is caught and
logged only, the finally removes the temp file and the call resolves with
undefined; on success the insert is issued and the call resolves with the
result triple. -/
def uploadBase64Image (store : List Record) (m : Measurement) (date : CalDate)
    (o : RecOutcome) : UploadExec :=
  match o with
  | .writeFileErr => ⟨none, true, false, false, store⟩
  | .uploadErr => ⟨none, false, true, true, store⟩
  | .generateErr => ⟨none, false, true, true, store⟩
  | .ok name uri text =>
    let newRec : Record :=
      { uuid := name, value := parseIntJS text, datetime := date,
        type := m.measure_type, confirmed := false,
        customer_code := m.customer_code, url := uri }
    ⟨some ⟨uri, parseIntJS text, name⟩, false, true, true, store ++ [newRec]⟩

/-- The COUNT query of the duplicate guard: rows whose stored date has the
given month and year and whose type matches; customer code and day take no
part in the predicate. -/
def dupCount (store : List Record) (month year : Nat) (t : MeasureType) : Nat :=
  store.countP (fun r => r.datetime.month == month && r.datetime.year == year && r.type == t)

/-- The tail of the upload route after the duplicate check passed: call
uploadBase64Image and map its outcome to a response. An escaped exception
reaches the route catch and yields 500; otherwise the resolved value is
sent with status 200 even when it is undefined. -/
def recognitionPhase (store : List Record) (m : Measurement) (date : CalDate)
    (o : RecOutcome) : Resp × List Record :=
  let ex := uploadBase64Image store m date o
  if ex.threw then
    ({ status := 500, body := .errMsg "INTERNAL_ERROR" "Server Internal Error." }, ex.store)
  else
    match ex.result with
    | some r => ({ status := 200, body := .uploadOk r.image_url r.measure_value r.measure_uuid }, ex.store)
    | none => ({ status := 200, body := .empty }, ex.store)

/-- The POST upload route: validation, date normalization, duplicate guard,
then the recognition phase. Returns the response and the store afterwards;
none models the request that receives no response at all — safeParse runs
outside the try block, so a RangeError escaping the datetime refinement
rejects the async handler before any response is sent. The re-parse inside
the try maps its own raise to the catch-all 500 (unreachable after
acceptance). -/
def uploadHandler (store : List Record) (raw : RawMeasurement) (o : RecOutcome) :
    Option (Resp × List Record) :=
  match measurementSafeParse raw with
  | .raised => none
  | .issues is =>
    some ({ status := 400,
            body := .errMap "INVALID_DATA" (generateValidationErrorResponse is) }, store)
  | .ok m =>
    match parseDateFromFormats m.measure_datetime with
    | .error _ =>
      some ({ status := 500, body := .errMsg "INTERNAL_ERROR" "Server Internal Error." }, store)
    | .ok none =>
      some ({ status := 400, body := .errMsg "INVALID_DATA" "Invalid datetime format." }, store)
    | .ok (some date) =>
      if 0 < dupCount store date.month date.year m.measure_type then
        some ({ status := 409,
                body := .errMsg "DOUBLE_REPORT"
                  ("There is already a reading for the type " ++ typeName m.measure_type
                    ++ " for the month entered.") }, store)
      else some (recognitionPhase store m date o)

/-- Raw confirm request body (a well-typed JSON body: string and number). -/
structure RawConfirmation where
  measure_uuid : String
  confirmed_value : Int
deriving DecidableEq, Repr

/-- Issues produced by the confirmation schema. -/
def validateConfirmation (c : RawConfirmation) : List (String × String) :=
  if c.measure_uuid.length = 0 then [("measure_uuid", "UUID can not be empty !")] else []

/-- The UPDATE statement of the confirm route: set confirmed and overwrite
value on every row with the given uuid. -/
def confirmUpdate (store : List Record) (u : String) (v : Int) : List Record :=
  store.map (fun r => if r.uuid == u then { r with confirmed := true, value := some v } else r)

/-- The PATCH confirm route: validate the body, look the uuid up (COUNT then
first row), reject an already confirmed row, otherwise update and answer
success. -/
def confirmHandler (store : List Record) (c : RawConfirmation) : Resp × List Record :=
  if validateConfirmation c ≠ [] then
    ({ status := 400,
       body := .errMap "INVALID_DATA" (generateValidationErrorResponse (validateConfirmation c)) }, store)
  else
    match store.find? (fun r => r.uuid == c.measure_uuid) with
    | none =>
      ({ status := 404,
         body := .errMsg "MEASURE_NOT_FOUND"
           ("Measure with UUID: " ++ c.measure_uuid ++ " not found.") }, store)
    | some r =>
      if r.confirmed then
        ({ status := 409,
           body := .errMsg "CONFIRMATION_DUPLICATE"
             ("Measure with UUID: " ++ c.measure_uuid ++ " already confirmed.") }, store)
      else
        ({ status := 200, body := .confirmOk },
          confirmUpdate store c.measure_uuid c.confirmed_value)

/-- The toUpperCase call of the runtime, over the character list. -/
def upcase (s : String) : String :=
  String.mk (s.toList.map Char.toUpper)

/-- The measure_type query parameter of the list route: absent, a string, or
some other JSON shape. -/
inductive QueryParam where
  | missing
  | str (s : String)
  | other
deriving DecidableEq, Repr

/-- Row predicate of the SELECT in the list route. -/
def listPred (cc : String) (t : Option MeasureType) (r : Record) : Bool :=
  r.customer_code == cc &&
    (match t with
     | some ty => r.type == ty
     | none => true)

/-- The SELECT of the list route and the row-count check: matching rows give
200 with the projected rows, no rows give the 404 body. -/
def listCore (store : List Record) (cc : String) (t : Option MeasureType) : Resp :=
  let rows := store.filter (listPred cc t)
  if 0 < rows.length then
    { status := 200, body := .listOk cc rows }
  else
    { status := 404,
      body := .errMsg "INVALID_TYPE" "No meansure readings found to this customer." }

/-- The GET list route: an absent filter queries by customer only; a string
filter is uppercased and matched against the enumeration, failing with 400;
a non-string filter fails with 400. -/
def listHandler (store : List Record) (cc : String) (q : QueryParam) : Resp :=
  match q with
  | .missing => listCore store cc none
  | .str s =>
    match parseType (upcase s) with
    | some t => listCore store cc (some t)
    | none =>
      { status := 400,
        body := .errMsg "INVALID_TYPE"
          "Invalid value to parameter measure_type . Expected values WATER | GAS." }
  | .other =>
    { status := 400,
      body := .errMsg "INVALID_TYPE"
        "Invalid format to parameter measure_type. Expected format \"string\"" }

/-! Concrete fixtures used by the witness theorems. -/

/-- A submission that passes validation: png data URI, nonempty customer,
date 15/03/2024, type WATER. -/
def rawGood : RawMeasurement :=
  { image := "data:image/png;base64,AAAA", customer_code := "c1",
    measure_datetime := "15/03/2024", measure_type := "WATER" }

/-- The typed form of rawGood. -/
def mGood : Measurement :=
  { image := "data:image/png;base64,AAAA", customer_code := "c1",
    measure_datetime := "15/03/2024", measure_type := .WATER }

/-- The calendar date rawGood normalizes to. -/
def dGood : CalDate := ⟨2024, 3, 15⟩

/-- A stored WATER record of another customer, same March 2024 period but a
different day. -/
def recMarch : Record :=
  { uuid := "u1", value := some 42, datetime := ⟨2024, 3, 2⟩, type := .WATER,
    confirmed := false, customer_code := "other", url := "http:x" }

/-- A submission violating two different fields: the image is not a data URI
and the customer code is empty. -/
def rawBad2 : RawMeasurement :=
  { image := "x", customer_code := "",
    measure_datetime := "15/03/2024", measure_type := "WATER" }

/-- A submission whose datetime 2024-02-30 fails the first eleven formats
but matches the date prefix of the raising twelfth format. -/
def rawDt30 : RawMeasurement :=
  { image := "data:image/png;base64,AAAA", customer_code := "c1",
    measure_datetime := "2024-02-30", measure_type := "WATER" }

/-! Helper lemmas. -/

theorem findFirst_eq_ok_none_iff (fs : List (List Tok)) (s : String) :
    findFirst fs s = .ok none ↔ ∀ f ∈ fs, parseWith f s = .invalid := by
  induction fs with
  | nil => simp [findFirst]
  | cons f0 fs ih =>
    cases hp : parseWith f0 s with
    | ok d => simp [findFirst, hp]
    | invalid => simp [findFirst, hp, ih]
    | raised => simp [findFirst, hp]

theorem findFirst_eq_ok_some_iff (fs : List (List Tok)) (s : String) (d : CalDate) :
    findFirst fs s = .ok (some d) ↔
      ∃ pre f post, fs = pre ++ f :: post ∧ (∀ g ∈ pre, parseWith g s = .invalid) ∧
        parseWith f s = .ok d := by
  induction fs with
  | nil =>
    simp only [findFirst]
    constructor
    · intro h
      injection h with h
      cases h
    · rintro ⟨pre, f, post, h, -, -⟩
      exact absurd h.symm (List.append_ne_nil_of_right_ne_nil pre (by simp))
  | cons f0 fs ih =>
    cases hp : parseWith f0 s with
    | ok d0 =>
      simp only [findFirst, hp]
      constructor
      · rintro h
        injection h with h
        injection h with h
        exact ⟨[], f0, fs, rfl, by simp, by rw [hp, h]⟩
      · rintro ⟨pre, f, post, heq, hpre, hf⟩
        cases pre with
        | nil =>
          simp only [List.nil_append, List.cons.injEq] at heq
          rw [← heq.1] at hf
          rw [hp] at hf
          injection hf with hf
          rw [hf]
        | cons g pre =>
          simp only [List.cons_append, List.cons.injEq] at heq
          have hg := hpre f0 (by rw [heq.1]; exact List.mem_cons_self g _)
          rw [hp] at hg
          cases hg
    | invalid =>
      simp only [findFirst, hp]
      rw [ih]
      constructor
      · rintro ⟨pre, f, post, rfl, hpre, hf⟩
        refine ⟨f0 :: pre, f, post, rfl, ?_, hf⟩
        intro g hg
        rcases List.mem_cons.mp hg with rfl | hg
        · exact hp
        · exact hpre g hg
      · rintro ⟨pre, f, post, heq, hpre, hf⟩
        cases pre with
        | nil =>
          simp only [List.nil_append, List.cons.injEq] at heq
          rw [← heq.1] at hf
          rw [hp] at hf
          cases hf
        | cons g pre =>
          simp only [List.cons_append, List.cons.injEq] at heq
          refine ⟨pre, f, post, heq.2, ?_, hf⟩
          intro g2 hg2
          exact hpre g2 (List.mem_cons_of_mem _ hg2)
    | raised =>
      simp only [findFirst, hp]
      constructor
      · intro h
        cases h
      · rintro ⟨pre, f, post, heq, hpre, hf⟩
        cases pre with
        | nil =>
          simp only [List.nil_append, List.cons.injEq] at heq
          rw [← heq.1] at hf
          rw [hp] at hf
          cases hf
        | cons g pre =>
          simp only [List.cons_append, List.cons.injEq] at heq
          have hg := hpre f0 (by rw [heq.1]; exact List.mem_cons_self g _)
          rw [hp] at hg
          cases hg

theorem findFirst_eq_error_iff (fs : List (List Tok)) (s : String) :
    findFirst fs s = .error () ↔
      ∃ pre f post, fs = pre ++ f :: post ∧ (∀ g ∈ pre, parseWith g s = .invalid) ∧
        parseWith f s = .raised := by
  induction fs with
  | nil =>
    simp only [findFirst]
    constructor
    · intro h
      cases h
    · rintro ⟨pre, f, post, h, -, -⟩
      exact absurd h.symm (List.append_ne_nil_of_right_ne_nil pre (by simp))
  | cons f0 fs ih =>
    cases hp : parseWith f0 s with
    | ok d0 =>
      simp only [findFirst, hp]
      constructor
      · intro h
        cases h
      · rintro ⟨pre, f, post, heq, hpre, hf⟩
        cases pre with
        | nil =>
          simp only [List.nil_append, List.cons.injEq] at heq
          rw [← heq.1] at hf
          rw [hp] at hf
          cases hf
        | cons g pre =>
          simp only [List.cons_append, List.cons.injEq] at heq
          have hg := hpre f0 (by rw [heq.1]; exact List.mem_cons_self g _)
          rw [hp] at hg
          cases hg
    | invalid =>
      simp only [findFirst, hp]
      rw [ih]
      constructor
      · rintro ⟨pre, f, post, rfl, hpre, hf⟩
        refine ⟨f0 :: pre, f, post, rfl, ?_, hf⟩
        intro g hg
        rcases List.mem_cons.mp hg with rfl | hg
        · exact hp
        · exact hpre g hg
      · rintro ⟨pre, f, post, heq, hpre, hf⟩
        cases pre with
        | nil =>
          simp only [List.nil_append, List.cons.injEq] at heq
          rw [← heq.1] at hf
          rw [hp] at hf
          cases hf
        | cons g pre =>
          simp only [List.cons_append, List.cons.injEq] at heq
          refine ⟨pre, f, post, heq.2, ?_, hf⟩
          intro g2 hg2
          exact hpre g2 (List.mem_cons_of_mem _ hg2)
    | raised =>
      simp only [findFirst, hp]
      constructor
      · intro h
        exact ⟨[], f0, fs, rfl, by simp, hp⟩
      · intro h
        trivial

theorem anyValid_eq_findFirst (fs : List (List Tok)) (s : String) :
    anyValid fs s = (findFirst fs s).map Option.isSome := by
  induction fs with
  | nil => rfl
  | cons f fs ih =>
    cases hp : parseWith f s <;> simp [anyValid, findFirst, hp, ih, Except.map]

theorem isDateTimeValid_eq_isSome (s : String) :
    isDateTimeValid s = (parseDateFromFormats s).map Option.isSome :=
  anyValid_eq_findFirst formats s

theorem dupCount_pos_iff (store : List Record) (mo y : Nat) (t : MeasureType) :
    0 < dupCount store mo y t ↔
      ∃ r ∈ store, r.datetime.month = mo ∧ r.datetime.year = y ∧ r.type = t := by
  simp [dupCount, List.countP_pos_iff, Bool.and_eq_true, beq_iff_eq, and_assoc]

theorem mem_dedup_foldl (ks : List String) (acc : List String) (x : String) :
    (x ∈ ks.foldl (fun acc k => if k ∈ acc then acc else acc ++ [k]) acc) ↔
      x ∈ acc ∨ x ∈ ks := by
  induction ks generalizing acc with
  | nil => simp
  | cons k ks ih =>
    simp only [List.foldl_cons]
    rw [ih]
    by_cases h : k ∈ acc
    · simp only [if_pos h, List.mem_cons]
      constructor
      · rintro (hx | hx)
        · exact Or.inl hx
        · exact Or.inr (Or.inr hx)
      · rintro (hx | rfl | hx)
        · exact Or.inl hx
        · exact Or.inl h
        · exact Or.inr hx
    · simp only [if_neg h, List.mem_append, List.mem_singleton, List.mem_cons]
      tauto

theorem mem_dedupKeys (ks : List String) (x : String) :
    x ∈ dedupKeys ks ↔ x ∈ ks := by
  unfold dedupKeys
  rw [mem_dedup_foldl]
  simp

theorem mem_generateValidationErrorResponse (issues : List (String × String))
    (f msg : String) (h : (f, msg) ∈ issues) :
    (fieldKey f, messagesFor issues f) ∈ generateValidationErrorResponse issues ∧
      msg ∈ messagesFor issues f := by
  constructor
  · unfold generateValidationErrorResponse
    refine List.mem_map_of_mem _ ?_
    rw [mem_dedupKeys]
    exact List.mem_map_of_mem _ h
  · unfold messagesFor
    have hmem : (f, msg) ∈ issues.filter (fun i => i.1 = f) := by
      rw [List.mem_filter]
      exact ⟨h, by simp⟩
    exact List.mem_map_of_mem (fun i => i.2) hmem

theorem validateMeasurement_ok_nil_iff (m : RawMeasurement) :
    validateMeasurement m = .ok [] ↔
      m.image.length ≠ 0 ∧ isBase64Image m.image = true ∧ m.customer_code.length ≠ 0 ∧
        m.measure_datetime.length ≠ 0 ∧ isDateTimeValid m.measure_datetime = .ok true ∧
        (parseType m.measure_type).isSome = true := by
  cases hdt : isDateTimeValid m.measure_datetime with
  | error e =>
    simp only [validateMeasurement, hdt]
    constructor
    · intro h
      cases h
    · rintro ⟨-, -, -, -, h5, -⟩
      cases h5
  | ok dtValid =>
    simp only [validateMeasurement, hdt, Except.ok.injEq]
    split_ifs with h1 h2 h3 h4 h5 h6 <;> simp_all

theorem measurementSafeParse_ok (raw : RawMeasurement) (m : Measurement)
    (h : measurementSafeParse raw = .ok m) :
    validateMeasurement raw = .ok [] ∧ m.image = raw.image ∧
      m.customer_code = raw.customer_code ∧
      m.measure_datetime = raw.measure_datetime ∧
      parseType raw.measure_type = some m.measure_type := by
  unfold measurementSafeParse at h
  cases hv : validateMeasurement raw with
  | error e => rw [hv] at h; cases h
  | ok is =>
    rw [hv] at h
    cases hp : parseType raw.measure_type with
    | none => rw [hp] at h; cases h
    | some t =>
      rw [hp] at h
      cases is with
      | nil =>
        injection h with h
        subst h
        exact ⟨rfl, rfl, rfl, rfl, rfl⟩
      | cons i is2 => cases h

theorem measurementSafeParse_issues (raw : RawMeasurement)
    (issues : List (String × String))
    (hv : validateMeasurement raw = .ok issues) (hne : issues ≠ []) :
    measurementSafeParse raw = .issues issues := by
  unfold measurementSafeParse
  rw [hv]
  cases hp : parseType raw.measure_type with
  | none => rfl
  | some t =>
    cases issues with
    | nil => exact absurd rfl hne
    | cons i is2 => rfl

theorem measurementSafeParse_raised (raw : RawMeasurement)
    (hv : validateMeasurement raw = .error ()) :
    measurementSafeParse raw = .raised := by
  unfold measurementSafeParse
  rw [hv]

theorem find?_confirmUpdate (store : List Record) (u : String) (v : Int) :
    (confirmUpdate store u v).find? (fun r => r.uuid == u) =
      (store.find? (fun r => r.uuid == u)).map
        (fun r => if r.uuid == u then { r with confirmed := true, value := some v } else r) := by
  unfold confirmUpdate
  rw [List.find?_map]
  have hfun : ((fun r : Record => r.uuid == u) ∘ fun r =>
      if r.uuid == u then { r with confirmed := true, value := some v } else r) =
      (fun r : Record => r.uuid == u) := by
    funext r
    by_cases h : r.uuid = u <;> simp [Function.comp, h]
  rw [hfun]

theorem eatLit_append (p rest : List Char) : eatLit p (p ++ rest) = some rest := by
  induction p with
  | nil => rfl
  | cons c p ih => simp [eatLit, ih]

theorem eatLit_eq_some (p : List Char) (cs rest : List Char)
    (h : eatLit p cs = some rest) : cs = p ++ rest := by
  induction p generalizing cs with
  | nil =>
    simp only [eatLit, Option.some.injEq] at h
    simpa using h
  | cons c p ih =>
    cases cs with
    | nil => cases h
    | cons d cs =>
      by_cases hd : d = c
      · subst hd
        rw [eatLit, if_pos rfl] at h
        have := ih cs h
        simp [this]
      · rw [eatLit, if_neg hd] at h
        cases h

/-! Claim theorems. -/

/-- C1: for an intake request that passed validation and date normalization,
the duplicate guard keys only on measure type and on the year and month of
the stored calendar dates — regardless of customer and of the day: when such
a record exists the request answers 409 DOUBLE_REPORT with the store
unchanged, and when none exists the request proceeds to the recognition
phase. -/
theorem upload_duplicate_guard_global_by_type_period
    (store : List Record) (raw : RawMeasurement) (m : Measurement) (d : CalDate)
    (o : RecOutcome)
    (hok : measurementSafeParse raw = .ok m)
    (hdate : parseDateFromFormats m.measure_datetime = .ok (some d)) :
    ((∃ r ∈ store, r.type = m.measure_type ∧ r.datetime.year = d.year ∧
        r.datetime.month = d.month) →
      uploadHandler store raw o =
        some ({ status := 409,
                body := .errMsg "DOUBLE_REPORT"
                  ("There is already a reading for the type " ++ typeName m.measure_type
                    ++ " for the month entered.") }, store)) ∧
    ((¬ ∃ r ∈ store, r.type = m.measure_type ∧ r.datetime.year = d.year ∧
        r.datetime.month = d.month) →
      uploadHandler store raw o = some (recognitionPhase store m d o)) := by
  have hdup := dupCount_pos_iff store d.month d.year m.measure_type
  constructor
  · intro hex
    have hpos : 0 < dupCount store d.month d.year m.measure_type := by
      rw [hdup]
      obtain ⟨r, hr, h1, h2, h3⟩ := hex
      exact ⟨r, hr, h3, h2, h1⟩
    simp only [uploadHandler, hok, hdate, if_pos hpos]
  · intro hex
    have hpos : ¬ 0 < dupCount store d.month d.year m.measure_type := by
      rw [hdup]
      rintro ⟨r, hr, h3, h2, h1⟩
      exact hex ⟨r, hr, h1, h2, h3⟩
    simp only [uploadHandler, hok, hdate, if_neg hpos]

/-- Witness for the duplicate-guard theorem: a stored March-2024 WATER record
of a different customer on a different day blocks the concrete request, and
the empty store lets the same request reach the recognition phase. -/
theorem upload_duplicate_guard_witness :
    uploadHandler [recMarch] rawGood .uploadErr =
      some ({ status := 409,
              body := .errMsg "DOUBLE_REPORT"
                ("There is already a reading for the type " ++ typeName mGood.measure_type
                  ++ " for the month entered.") }, [recMarch]) ∧
    uploadHandler [] rawGood .uploadErr = some (recognitionPhase [] mGood dGood .uploadErr) := by
  constructor
  · exact (upload_duplicate_guard_global_by_type_period [recMarch] rawGood mGood dGood
      .uploadErr (by rfl) (by rfl)).1 (by decide)
  · exact (upload_duplicate_guard_global_by_type_period [] rawGood mGood dGood
      .uploadErr (by rfl) (by rfl)).2 (by decide)

/-- C4: a request that ends at validation, at date normalization or at the
duplicate guard leaves the store unchanged, and its outcome is the same
under every recognition oracle — the recognizer is never consulted. -/
theorem upload_early_exit_no_side_effects
    (store : List Record) (raw : RawMeasurement) (o o2 : RecOutcome)
    (h : (∃ is, measurementSafeParse raw = .issues is) ∨
      (∃ m, measurementSafeParse raw = .ok m ∧
        parseDateFromFormats m.measure_datetime = .ok none) ∨
      (∃ m d, measurementSafeParse raw = .ok m ∧
        parseDateFromFormats m.measure_datetime = .ok (some d) ∧
        0 < dupCount store d.month d.year m.measure_type)) :
    (∀ r st, uploadHandler store raw o = some (r, st) → st = store) ∧
      uploadHandler store raw o = uploadHandler store raw o2 := by
  rcases h with ⟨is, he⟩ | ⟨m, hok, hnone⟩ | ⟨m, d, hok, hsome, hdupl⟩
  · constructor
    · intro r st hh
      simp only [uploadHandler, he, Option.some.injEq, Prod.mk.injEq] at hh
      exact hh.2.symm
    · simp [uploadHandler, he]
  · constructor
    · intro r st hh
      simp only [uploadHandler, hok, hnone, Option.some.injEq, Prod.mk.injEq] at hh
      exact hh.2.symm
    · simp [uploadHandler, hok, hnone]
  · constructor
    · intro r st hh
      simp only [uploadHandler, hok, hsome, if_pos hdupl, Option.some.injEq,
        Prod.mk.injEq] at hh
      exact hh.2.symm
    · simp only [uploadHandler, hok, hsome, if_pos hdupl]

/-- Witness for the early-exit theorem: a submission with a malformed image
and an empty customer code changes nothing and ignores the oracle. -/
theorem upload_early_exit_witness :
    (∀ r st, uploadHandler [] rawBad2 .uploadErr = some (r, st) → st = ([] : List Record)) ∧
      uploadHandler [] rawBad2 .uploadErr = uploadHandler [] rawBad2 (.ok "u9" "http:y" "7") :=
  upload_early_exit_no_side_effects [] rawBad2 .uploadErr (.ok "u9" "http:y" "7")
    (Or.inl ⟨[("image", "Invalid Base64 image format"),
      ("customer_code", "Customer Code can not be empty !")], by rfl⟩)

/-- C3 evidence: at a concrete intake whose recognition upload call fails,
the temporary file is created and released again and no record is written,
but the route answers 200 with an undefined body instead of the internal
error the specification requires — the inner catch swallows the failure and
the route serializes the undefined return value. -/
theorem upload_recognition_failure_answers_200 :
    (uploadBase64Image [] mGood dGood .uploadErr).tempCreated = true ∧
    (uploadBase64Image [] mGood dGood .uploadErr).tempReleased = true ∧
    (uploadBase64Image [] mGood dGood .uploadErr).store = [] ∧
    uploadHandler [] rawGood .uploadErr = some ({ status := 200, body := .empty }, []) := by
  refine ⟨rfl, rfl, rfl, ?_⟩
  decide

/-- C5 counterexample: at 2024-02-30 no format parses to a calendar-valid
date — as the closing all-formats check shows — yet the normalizer does not
return null: the date prefix of the raising twelfth pattern matches, so the
RangeError escapes instead. -/
theorem parseDateFromFormats_raises_counterexample :
    parseDateFromFormats "2024-02-30" = .error () ∧
    parseDateFromFormats "2024-02-30" ≠ .ok none ∧
    (formats.all fun f =>
      match parseWith f "2024-02-30" with
      | .ok _ => false
      | _ => true) = true := by
  have h0 : parseDateFromFormats "2024-02-30" = .error () := rfl
  refine ⟨h0, ?_, by decide⟩
  rw [h0]
  intro h
  cases h

/-- C5 amended: the normalizer returns the value of the first format in the
ordered list that parses the input to a calendar-valid date, and null when
every format fails without raising; but the last format carries the raising
unquoted-T token, so when the input defeats the first eleven formats and its
prefix matches yyyy-MM-dd the normalizer raises a RangeError instead of
returning null. The ambiguous 01/02/2024 still yields February 1st because
the dd/MM/yyyy pattern at index 1 precedes the MM/dd/yyyy pattern at index
2, which by itself would have yielded January 2nd; 2024-02-30 raises. -/
theorem parseDateFromFormats_first_match_or_raise :
    (∀ s d, parseDateFromFormats s = .ok (some d) ↔
      ∃ pre f post, formats = pre ++ f :: post ∧ (∀ g ∈ pre, parseWith g s = .invalid) ∧
        parseWith f s = .ok d) ∧
    (∀ s, parseDateFromFormats s = .ok none ↔ ∀ f ∈ formats, parseWith f s = .invalid) ∧
    (∀ s, parseDateFromFormats s = .error () ↔
      ∃ pre f post, formats = pre ++ f :: post ∧ (∀ g ∈ pre, parseWith g s = .invalid) ∧
        parseWith f s = .raised) ∧
    parseDateFromFormats "01/02/2024" = .ok (some ⟨2024, 2, 1⟩) ∧
    parseWith (formats.getD 1 []) "01/02/2024" = .ok ⟨2024, 2, 1⟩ ∧
    parseWith (formats.getD 2 []) "01/02/2024" = .ok ⟨2024, 1, 2⟩ ∧
    parseDateFromFormats "2024-02-30" = .error () :=
  ⟨fun s d => findFirst_eq_ok_some_iff formats s d,
    fun s => findFirst_eq_ok_none_iff formats s,
    fun s => findFirst_eq_error_iff formats s,
    by rfl, by decide, by decide, by rfl⟩

/-- C2: with a well-formed body, the confirm route answers 404
MEASURE_NOT_FOUND when no record carries the identifier, 409
CONFIRMATION_DUPLICATE when the found record is already confirmed, and
otherwise marks the record confirmed with the corrected value and answers
200; a second confirmation of the same identifier after a successful one
answers 409 — the route never answers 200 twice for one identifier. -/
theorem confirm_state_machine
    (store : List Record) (c c2 : RawConfirmation)
    (h : c.measure_uuid ≠ "") (h2 : c2.measure_uuid = c.measure_uuid) :
    (store.find? (fun r => r.uuid == c.measure_uuid) = none →
      confirmHandler store c =
        ({ status := 404,
           body := .errMsg "MEASURE_NOT_FOUND"
             ("Measure with UUID: " ++ c.measure_uuid ++ " not found.") }, store)) ∧
    (∀ r, store.find? (fun r => r.uuid == c.measure_uuid) = some r → r.confirmed = true →
      confirmHandler store c =
        ({ status := 409,
           body := .errMsg "CONFIRMATION_DUPLICATE"
             ("Measure with UUID: " ++ c.measure_uuid ++ " already confirmed.") }, store)) ∧
    (∀ r, store.find? (fun r => r.uuid == c.measure_uuid) = some r → r.confirmed = false →
      confirmHandler store c =
        ({ status := 200, body := .confirmOk },
          confirmUpdate store c.measure_uuid c.confirmed_value)) ∧
    ((confirmHandler store c).1.status = 200 →
      (confirmHandler (confirmHandler store c).2 c2).1.status = 409 ∧
        errCode (confirmHandler (confirmHandler store c).2 c2).1.body =
          some "CONFIRMATION_DUPLICATE") := by
  have hlen : ¬ (c.measure_uuid.length = 0) := by
    intro h0
    exact h (String.ext (List.length_eq_zero.mp h0))
  have hv : ¬ (validateConfirmation c ≠ []) := by
    unfold validateConfirmation
    rw [if_neg hlen]
    exact fun hne => hne rfl
  have hlen2 : ¬ (c2.measure_uuid.length = 0) := by rw [h2]; exact hlen
  have hv2 : ¬ (validateConfirmation c2 ≠ []) := by
    unfold validateConfirmation
    rw [if_neg hlen2]
    exact fun hne => hne rfl
  refine ⟨?_, ?_, ?_, ?_⟩
  · intro hfind
    unfold confirmHandler
    rw [if_neg hv, hfind]
  · intro r hfind hc
    unfold confirmHandler
    rw [if_neg hv, hfind]
    simp [hc]
  · intro r hfind hc
    unfold confirmHandler
    rw [if_neg hv, hfind]
    simp [hc]
  · intro h200
    cases hfind : store.find? (fun r => r.uuid == c.measure_uuid) with
    | none =>
      unfold confirmHandler at h200
      rw [if_neg hv, hfind] at h200
      simp at h200
    | some r =>
      cases hc : r.confirmed with
      | true =>
        unfold confirmHandler at h200
        rw [if_neg hv, hfind] at h200
        simp [hc] at h200
      | false =>
        have hcall : confirmHandler store c =
            ({ status := 200, body := .confirmOk },
              confirmUpdate store c.measure_uuid c.confirmed_value) := by
          unfold confirmHandler
          rw [if_neg hv, hfind]
          simp [hc]
        rw [hcall]
        have huuid : (r.uuid == c.measure_uuid) = true := by
          have hx := List.find?_some hfind
          simpa using hx
        have hfind2 : (confirmUpdate store c.measure_uuid c.confirmed_value).find?
            (fun x => x.uuid == c2.measure_uuid) =
            some { r with confirmed := true, value := some c.confirmed_value } := by
          rw [h2, find?_confirmUpdate, hfind]
          have hueq : r.uuid = c.measure_uuid := by simpa using huuid
          simp [hueq]
        unfold confirmHandler
        rw [if_neg hv2, hfind2]
        exact ⟨rfl, rfl⟩

/-- Witness for the confirm state machine: confirming the stored record
succeeds once and a repeated confirmation of the same identifier answers
409. -/
theorem confirm_state_machine_witness :
    confirmHandler [recMarch] ⟨"u1", 99⟩ =
      ({ status := 200, body := .confirmOk }, confirmUpdate [recMarch] "u1" 99) ∧
    (confirmHandler (confirmHandler [recMarch] ⟨"u1", 99⟩).2 ⟨"u1", 7⟩).1.status = 409 := by
  have h := confirm_state_machine [recMarch] ⟨"u1", 99⟩ ⟨"u1", 7⟩ (by decide) rfl
  refine ⟨h.2.2.1 recMarch (by rfl) rfl, ?_⟩
  exact (h.2.2.2 (by rw [h.2.2.1 recMarch (by rfl) rfl])).1

/-- C6: the validator date check agrees with the normalizer — isDateTimeValid
yields true exactly when parseDateFromFormats yields a date, both walking the
same format list with the same parse-and-validate test and raising at the
same inputs — so once validation has accepted a submission the re-parse
returns a date and the normalization-failure 400 branch of the upload route
cannot be taken. -/
theorem validator_normalizer_agreement :
    (∀ s, isDateTimeValid s = (parseDateFromFormats s).map Option.isSome) ∧
    (∀ (store : List Record) (raw : RawMeasurement) (o : RecOutcome) (m : Measurement),
      measurementSafeParse raw = .ok m →
        (∃ d, parseDateFromFormats m.measure_datetime = .ok (some d)) ∧
        ∀ r st, uploadHandler store raw o = some (r, st) →
          r.body ≠ .errMsg "INVALID_DATA" "Invalid datetime format.") := by
  refine ⟨isDateTimeValid_eq_isSome, ?_⟩
  intro store raw o m hok
  obtain ⟨hval, hi, hcc, hdt, hty⟩ := measurementSafeParse_ok raw m hok
  have hvalid : isDateTimeValid raw.measure_datetime = .ok true :=
    ((validateMeasurement_ok_nil_iff raw).mp hval).2.2.2.2.1
  have hmap : (parseDateFromFormats m.measure_datetime).map Option.isSome = .ok true := by
    rw [hdt, ← isDateTimeValid_eq_isSome]
    exact hvalid
  obtain ⟨d, hd⟩ : ∃ d, parseDateFromFormats m.measure_datetime = .ok (some d) := by
    cases hpd : parseDateFromFormats m.measure_datetime with
    | error e => rw [hpd] at hmap; cases hmap
    | ok ov =>
      cases ov with
      | none => rw [hpd] at hmap; simp [Except.map] at hmap
      | some d => exact ⟨d, rfl⟩
  refine ⟨⟨d, hd⟩, ?_⟩
  intro r st hr
  simp only [uploadHandler, hok, hd] at hr
  by_cases hdup : 0 < dupCount store d.month d.year m.measure_type
  · rw [if_pos hdup] at hr
    injection hr with hr
    have hfst : _ = r := congrArg Prod.fst hr
    rw [← hfst]
    intro hx
    exact absurd (Body.errMsg.inj hx).1 (by decide)
  · rw [if_neg hdup] at hr
    injection hr with hr
    have hfst : _ = r := congrArg Prod.fst hr
    rw [← hfst]
    cases o <;> simp [recognitionPhase, uploadBase64Image]

/-- C7 counterexample: the submission whose datetime is 2024-02-30 does not
validate, yet no 400 field-map response is produced — the zod refinement
raises while checking the datetime, safeParse throws outside the try block
and the route sends no response at all. -/
theorem upload_validation_throw_counterexample :
    validateMeasurement rawDt30 = .error () ∧
    measurementSafeParse rawDt30 = .raised ∧
    uploadHandler [] rawDt30 .uploadErr = none :=
  ⟨rfl, rfl, rfl⟩

/-- C7 amended: a submission whose validation completes with issues is
answered 400 INVALID_DATA whose description maps each violated field (under
its decorated key) to the list of all its messages — violations on different
fields are all reported, the check does not stop at the first failing field;
but a submission whose datetime check raises gets no response at all. -/
theorem upload_validation_failure_reports_all_fields
    (store : List Record) (raw : RawMeasurement) (o : RecOutcome)
    (issues : List (String × String))
    (hv : validateMeasurement raw = .ok issues) (h : issues ≠ []) :
    uploadHandler store raw o =
      some ({ status := 400,
              body := .errMap "INVALID_DATA" (generateValidationErrorResponse issues) },
        store) ∧
    (∀ f msg, (f, msg) ∈ issues →
      (fieldKey f, messagesFor issues f) ∈ generateValidationErrorResponse issues ∧
        msg ∈ messagesFor issues f) ∧
    (∀ raw2, validateMeasurement raw2 = .error () →
      uploadHandler store raw2 o = none) := by
  refine ⟨?_, ?_, ?_⟩
  · have he := measurementSafeParse_issues raw issues hv h
    simp [uploadHandler, he]
  · intro f msg hmem
    exact mem_generateValidationErrorResponse _ f msg hmem
  · intro raw2 hr2
    have he := measurementSafeParse_raised raw2 hr2
    simp [uploadHandler, he]

/-- Witness for the validation-failure theorem: a submission with a malformed
image and an empty customer code is answered 400 and both violated fields
appear in the description map. -/
theorem upload_validation_failure_witness :
    uploadHandler [] rawBad2 .uploadErr =
      some ({ status := 400,
              body := .errMap "INVALID_DATA"
                (generateValidationErrorResponse
                  [("image", "Invalid Base64 image format"),
                   ("customer_code", "Customer Code can not be empty !")]) }, []) ∧
    (fieldKey "image",
        messagesFor [("image", "Invalid Base64 image format"),
          ("customer_code", "Customer Code can not be empty !")] "image") ∈
      generateValidationErrorResponse
        [("image", "Invalid Base64 image format"),
         ("customer_code", "Customer Code can not be empty !")] ∧
    (fieldKey "customer_code",
        messagesFor [("image", "Invalid Base64 image format"),
          ("customer_code", "Customer Code can not be empty !")] "customer_code") ∈
      generateValidationErrorResponse
        [("image", "Invalid Base64 image format"),
         ("customer_code", "Customer Code can not be empty !")] := by
  have h := upload_validation_failure_reports_all_fields [] rawBad2 .uploadErr
    [("image", "Invalid Base64 image format"),
     ("customer_code", "Customer Code can not be empty !")] (by rfl) (by decide)
  exact ⟨h.1, (h.2.1 "image" "Invalid Base64 image format" (by decide)).1,
    (h.2.1 "customer_code" "Customer Code can not be empty !" (by decide)).1⟩

/-- C8: the list route uppercases a string filter before matching the
enumeration, so differently-cased spellings behave identically; a string not
mapping to the enumeration answers 400 INVALID_TYPE rather than an empty
result; a resolved filter runs the query; and an empty result set answers
404 rather than 200 with an empty sequence. -/
theorem list_route_filter_and_empty_result
    (store : List Record) (cc : String) :
    (∀ s t, upcase s = upcase t →
      listHandler store cc (.str s) = listHandler store cc (.str t)) ∧
    (∀ s, parseType (upcase s) = none →
      listHandler store cc (.str s) =
        { status := 400,
          body := .errMsg "INVALID_TYPE"
            "Invalid value to parameter measure_type . Expected values WATER | GAS." }) ∧
    (∀ s t, parseType (upcase s) = some t →
      listHandler store cc (.str s) = listCore store cc (some t)) ∧
    listHandler store cc .missing = listCore store cc none ∧
    (∀ t, store.filter (listPred cc t) = [] →
      listCore store cc t =
        { status := 404,
          body := .errMsg "INVALID_TYPE" "No meansure readings found to this customer." }) := by
  refine ⟨?_, ?_, ?_, rfl, ?_⟩
  · intro s t hst
    simp only [listHandler, hst]
  · intro s hs
    simp only [listHandler, hs]
  · intro s t hs
    simp only [listHandler, hs]
  · intro t ht
    unfold listCore
    simp [ht]

/-- Witness for the list-route theorem: the lowercase spelling water behaves
like WATER, an unknown type answers 400, and the empty store answers 404. -/
theorem list_route_filter_witness :
    listHandler [recMarch] "other" (.str "water") =
      listHandler [recMarch] "other" (.str "WATER") ∧
    listHandler [recMarch] "other" (.str "fire") =
      { status := 400,
        body := .errMsg "INVALID_TYPE"
          "Invalid value to parameter measure_type . Expected values WATER | GAS." } ∧
    listCore [] "nobody" none =
      { status := 404,
        body := .errMsg "INVALID_TYPE" "No meansure readings found to this customer." } := by
  have h := list_route_filter_and_empty_result [recMarch] "other"
  have h2 := list_route_filter_and_empty_result ([] : List Record) "nobody"
  exact ⟨h.1 "water" "WATER" (by decide), h.2.1 "fire" (by decide),
    h2.2.2.2.2 none (by decide)⟩

/-- C9: the 404 answer of an empty listing result carries error_code
INVALID_TYPE — the same code the route uses for an invalid measure_type
filter — so the two conditions are indistinguishable by error_code alone. -/
theorem list_empty_result_reuses_invalid_type_code
    (store : List Record) (cc : String) :
    (store.filter (listPred cc none) = [] →
      (listHandler store cc .missing).status = 404 ∧
      errCode (listHandler store cc .missing).body = some "INVALID_TYPE") ∧
    (∀ s, parseType (upcase s) = none →
      (listHandler store cc (.str s)).status = 400 ∧
      errCode (listHandler store cc (.str s)).body = some "INVALID_TYPE") := by
  constructor
  · intro ht
    have : listHandler store cc .missing =
        { status := 404,
          body := .errMsg "INVALID_TYPE" "No meansure readings found to this customer." } := by
      show listCore store cc none = _
      unfold listCore
      simp [ht]
    rw [this]
    simp [errCode]
  · intro s hs
    simp only [listHandler, hs]
    simp [errCode]

/-- Witness for the shared-error-code theorem: with an empty store the
missing-filter listing answers 404 and the unknown filter fire answers 400,
both with error_code INVALID_TYPE. -/
theorem list_empty_result_code_witness :
    (listHandler [] "cust" .missing).status = 404 ∧
    errCode (listHandler [] "cust" .missing).body = some "INVALID_TYPE" ∧
    (listHandler [] "cust" (.str "fire")).status = 400 ∧
    errCode (listHandler [] "cust" (.str "fire")).body = some "INVALID_TYPE" := by
  have h := list_empty_result_reuses_invalid_type_code ([] : List Record) "cust"
  have h1 := h.1 (by decide)
  have h2 := h.2 "fire" (by decide)
  exact ⟨h1.1, h1.2, h2.1, h2.2⟩

theorem getMimeType_of_jpeg (s : String) (rest : List Char)
    (h : s.toList = "data:image/jpeg;base64,".toList ++ rest) :
    getMimeType s = "image/jpeg" := by
  have hcat : ("data:image/jpeg;base64,".toList : List Char) =
      "data:image/".toList ++ "jpeg;base64,".toList := by decide
  have hsplit : s.toList = "data:image/".toList ++ ("jpeg;base64,".toList ++ rest) := by
    rw [h, hcat, List.append_assoc]
  unfold getMimeType
  rw [hsplit, eatLit_append]
  have hta : takeAlpha ("jpeg;base64,".toList ++ rest) =
      ("jpeg".toList, ";base64,".toList ++ rest) := rfl
  simp only [hta]
  rw [eatLit_append]
  simp

theorem getMimeType_of_png (s : String) (rest : List Char)
    (h : s.toList = "data:image/png;base64,".toList ++ rest) :
    getMimeType s = "image/png" := by
  have hcat : ("data:image/png;base64,".toList : List Char) =
      "data:image/".toList ++ "png;base64,".toList := by decide
  have hsplit : s.toList = "data:image/".toList ++ ("png;base64,".toList ++ rest) := by
    rw [h, hcat, List.append_assoc]
  unfold getMimeType
  rw [hsplit, eatLit_append]
  have hta : takeAlpha ("png;base64,".toList ++ rest) =
      ("png".toList, ";base64,".toList ++ rest) := rfl
  simp only [hta]
  rw [eatLit_append]
  simp

/-- C10: an image the validator accepts is a jpeg or png data URI — every
other subtype, gif for instance, is rejected — so getMimeType never returns
its octet-stream fallback on it, and the temp-file extension derived from
the mime type is jpg or png, never bin. -/
theorem accepted_image_mime_and_extension (s : String)
    (h : isBase64Image s = true) :
    (getMimeType s = "image/jpeg" ∨ getMimeType s = "image/png") ∧
    (mimeTypeToFileExtension (getMimeType s) = "jpg" ∨
      mimeTypeToFileExtension (getMimeType s) = "png") ∧
    isBase64Image "data:image/gif;base64,AAAA" = false := by
  have hmime : getMimeType s = "image/jpeg" ∨ getMimeType s = "image/png" := by
    unfold isBase64Image at h
    rw [Bool.or_eq_true] at h
    rcases h with hj | hp
    · left
      have hj2 : (match eatLit "data:image/jpeg;base64,".toList s.toList with
          | some rest => !rest.isEmpty && rest.all b64Char
          | none => false) = true := hj
      cases he : eatLit "data:image/jpeg;base64,".toList s.toList with
      | none => rw [he] at hj2; cases hj2
      | some rest => exact getMimeType_of_jpeg s rest (eatLit_eq_some _ _ _ he)
    · right
      have hp2 : (match eatLit "data:image/png;base64,".toList s.toList with
          | some rest => !rest.isEmpty && rest.all b64Char
          | none => false) = true := hp
      cases he : eatLit "data:image/png;base64,".toList s.toList with
      | none => rw [he] at hp2; cases hp2
      | some rest => exact getMimeType_of_png s rest (eatLit_eq_some _ _ _ he)
  refine ⟨hmime, ?_, by decide⟩
  rcases hmime with hm | hm <;> rw [hm]
  · left; decide
  · right; decide

/-- Witness for the mime-type theorem at two concrete accepted images, one
jpeg and one png. -/
theorem accepted_image_mime_witness :
    getMimeType "data:image/jpeg;base64,AAAA" = "image/jpeg" ∧
    mimeTypeToFileExtension (getMimeType "data:image/png;base64,AAAA") = "png" := by
  have hj := accepted_image_mime_and_extension "data:image/jpeg;base64,AAAA" (by decide)
  have hp := accepted_image_mime_and_extension "data:image/png;base64,AAAA" (by decide)
  constructor
  · rcases hj.1 with hm | hm
    · exact hm
    · exact absurd hm (by decide)
  · rcases hp.2.1 with hm | hm
    · rcases hp.1 with hx | hx
      · exact absurd hx (by decide)
      · rw [hx] at hm
        exact absurd hm (by decide)
    · exact hm

end Shopper
